import Mathlib

/-!
Shallow embedding of the core of `sawmill.py` (campadrenalin/Sawmill), a
toolkit of composable lazy sequence operators for log analysis, together
with proofs about the embedded operations.

Lazy Python generators are embedded as functions on finite lists.  A
generator that can raise mid-iteration is embedded as a function returning
the list of items yielded before the failure point, paired with the
optional exception (`List γ × Option PyErr`), or as `Except PyErr _` when
no items can be observed before the failure.  Python `dict`s are embedded
as association lists that keep insertion order and update an existing key
in place, matching CPython semantics.  Python `str` values flowing through
the pipeline are embedded as `List Char`; `str.split(sep, maxsplit)` with a
non-empty separator, `sep.join(...)` and the substring test `in` are
embedded concretely below.
-/

set_option autoImplicit false

namespace Sawmill

universe u v

variable {α : Type u} {β : Type v}

/-- Python exception classes that the embedded fragments of `sawmill.py`
can raise. -/
inductive PyErr where
  | indexError
  | keyError
  | typeError
  | nameError
  | fileNotFoundError
  deriving DecidableEq, Repr

/-- Python `key in d` on a dict embedded as an association list. -/
def dictMem [DecidableEq α] (d : List (α × β)) (k : α) : Bool :=
  d.any (fun kv => decide (kv.1 = k))

/-- Python `d[key]` lookup, `none` standing for a KeyError situation. -/
def dictGet [DecidableEq α] (d : List (α × β)) (k : α) : Option β :=
  (d.find? (fun kv => decide (kv.1 = k))).map (fun kv => kv.2)

/-- Python `d[key] = v`: updates an existing entry in place (keeping its
position), otherwise appends the new entry, as CPython dicts do. -/
def dictSet [DecidableEq α] (d : List (α × β)) (k : α) (v : β) : List (α × β) :=
  if dictMem d k then
    d.map (fun kv => if kv.1 = k then (k, v) else kv)
  else
    d ++ [(k, v)]

/-- The keys of a dict, in insertion order. -/
def dictKeys (d : List (α × β)) : List α :=
  d.map (fun kv => kv.1)

/-- Sum of the values of a `str -> int` style dict (used for frequency
tables). -/
def sumValues (d : List (α × Nat)) : Nat :=
  (d.map (fun kv => kv.2)).sum

/-- `leadsWith pat s` is true when `pat` is a leading segment of `s`
(Python `s.startswith(pat)`). -/
def leadsWith [DecidableEq α] : List α → List α → Bool
  | [], _ => true
  | _ :: _, [] => false
  | a :: pat, b :: s => decide (a = b) && leadsWith pat s

/-- Leftmost occurrence of `sep` in `s`: returns the text before the
occurrence and the text after it, or `none` when `sep` does not occur. -/
def splitFirst (sep : List Char) : List Char → Option (List Char × List Char)
  | [] => none
  | c :: rest =>
    if leadsWith sep (c :: rest) then some ([], (c :: rest).drop sep.length)
    else
      match splitFirst sep rest with
      | none => none
      | some pq => some (c :: pq.1, pq.2)

/-- Python `s.split(sep, maxsplit)` for a non-empty separator: split at the
leftmost occurrences of `sep`, at most `maxsplit` times; the remainder
(possibly still containing `sep`) is the final element. -/
def pySplit (sep : List Char) : Nat → List Char → List (List Char)
  | 0, s => [s]
  | m + 1, s =>
    match splitFirst sep s with
    | none => [s]
    | some pq => pq.1 :: pySplit sep m pq.2

/-- Python `sep.join(parts)`. -/
def pyJoin (sep : List Char) : List (List Char) → List Char
  | [] => []
  | [x] => x
  | x :: y :: rest => x ++ sep ++ pyJoin sep (y :: rest)

/-- Python `pattern in s` for strings: substring containment. -/
def pyContains (pattern : List Char) : List Char → Bool
  | [] => pattern.isEmpty
  | c :: rest => leadsWith pattern (c :: rest) || pyContains pattern rest

/-! ### Sources: `cat` -/

/-- An element of the source sequence handed to `cat`: either an already
open file-like object (we record the lines it will yield) or a path
string. -/
inductive CatItem where
  | stream (lines : List (List Char))
  | path (name : String)

/-- `is_filelike(item)`: `hasattr(item, 'read') and hasattr(item, 'write')`.
An open stream has both attributes; a path string has neither. -/
def is_filelike : CatItem → Bool
  | .stream _ => true
  | .path _ => false

/-- The generator `cat(source)`, embedded against an explicit filesystem
`fs` mapping path names to their lines (`none` = the path cannot be
opened, so `open` raises).  The source loop body reads:

    if is_filelike(item):
        for line in item:
            yield line
    with open(item, 'r') as fileobj:
        for line in fileobj:
            yield line

There is no `else`: after yielding a file-like item's lines, control falls
through to `open(item, 'r')`, and `open` applied to a stream object (not a
path) raises TypeError, aborting the generator.  The result is the list of
lines yielded before any exception, with the exception if one occurred. -/
def cat (fs : String → Option (List (List Char))) :
    List CatItem → List (List Char) × Option PyErr
  | [] => ([], none)
  | .stream lines :: _ =>
    -- is_filelike: the stream's lines are yielded; then `open(item, 'r')`
    -- on the stream object raises TypeError and the rest is never reached.
    (lines, some .typeError)
  | .path p :: rest =>
    -- is_filelike is false, so nothing is yielded before the `with` block.
    match fs p with
    | none => ([], some .fileNotFoundError)
    | some lines =>
      let step := cat fs rest
      (lines ++ step.1, step.2)

/-! ### Filters: `once`, `grep`, `find`, `columns`, `uncolumns` -/

/-- The inner loop of `once` for one item: call the callbacks in order and
return the first non-None result, if any. -/
def onceItem (callbacks : List (α → Option β)) (item : α) : Option β :=
  match callbacks with
  | [] => none
  | callback :: rest =>
    match callback item with
    | some result => some result
    | none => onceItem rest item

/-- `once(source, *callbacks)`: for each item, call the callbacks in order,
yield the first non-None result and stop trying further callbacks for that
item; yield nothing for the item when every callback returns None. -/
def once (source : List α) (callbacks : List (α → Option β)) : List β :=
  match source with
  | [] => []
  | item :: rest =>
    match onceItem callbacks item with
    | some result => result :: once rest callbacks
    | none => once rest callbacks

/-- `grep(source, pattern, invert=...)` in the `category=None` branch.  The
compiled pattern's search-anywhere test `bool(pattern.search(item))` is
embedded as an abstract predicate `search` (the regex engine is an external
library); the stage yields `item` when `search item ^ invert`. -/
def grep (source : List α) (search : α → Bool) (invert : Bool) : List α :=
  match source with
  | [] => []
  | item :: rest =>
    if (search item).xor invert then item :: grep rest search invert
    else grep rest search invert

/-- `find(source, pattern, invert=...)` in the `category=None` branch:
yields `item` when `(pattern in item) ^ invert`, with `in` the substring
test. -/
def find (source : List (List Char)) (pattern : List Char) (invert : Bool) :
    List (List Char) :=
  match source with
  | [] => []
  | item :: rest =>
    if (pyContains pattern item).xor invert then item :: find rest pattern invert
    else find rest pattern invert

/-- The per-line loop of `columns`:

    for i in range(num_columns):
        name = column_names[i]
        value = column_values[i]
        if name != None:
            output_dict[name] = value

`column_values[i]` raises IndexError as soon as `i` reaches the length of
the split result while template entries remain; names beyond the split are
never reached, and values beyond the template are never read. -/
def columnsLoop (acc : List (String × List Char)) :
    List (Option String) → List (List Char) → Except PyErr (List (String × List Char))
  | [], _ => .ok acc
  | _ :: _, [] => .error .indexError
  | name :: names, value :: values =>
    columnsLoop
      (match name with
       | some n => dictSet acc n value
       | none => acc)
      names values

/-- One line of `columns(source, sep, column_names, splitter_type='split')`:
the splitter is `lambda x: x.split(sep, maxsplit=num_columns)` and the loop
above builds the record. -/
def columnsLine (sep : List Char) (column_names : List (Option String))
    (line : List Char) : Except PyErr (List (String × List Char)) :=
  columnsLoop [] column_names (pySplit sep column_names.length line)

/-- The `columns` generator over a whole source, for the `'split'`
strategy: records yielded before any exception, with the exception if one
occurred (nothing is yielded for the failing line, and later lines are not
consumed). -/
def columnsList (sep : List Char) (column_names : List (Option String)) :
    List (List Char) → List (List (String × List Char)) × Option PyErr
  | [] => ([], none)
  | line :: rest =>
    match columnsLine sep column_names line with
    | .error e => ([], some e)
    | .ok record =>
      let step := columnsList sep column_names rest
      (record :: step.1, step.2)

/-- The generator expression `(item[name] for name in column_names)` inside
`uncolumns`, collecting every looked-up value (KeyError when a name is
missing from the record). -/
def lookupAll (item : List (String × List Char)) :
    List String → Except PyErr (List (List Char))
  | [] => .ok []
  | name :: names =>
    match dictGet item name with
    | none => .error .keyError
    | some value =>
      match lookupAll item names with
      | .error e => .error e
      | .ok values => .ok (value :: values)

/-- One item of `uncolumns(source, sep, column_names)`:
`sep.join(item[name] for name in column_names)`. -/
def uncolumnsLine (sep : List Char) (column_names : List String)
    (item : List (String × List Char)) : Except PyErr (List Char) :=
  match lookupAll item column_names with
  | .error e => .error e
  | .ok values => .ok (pyJoin sep values)

/-- Column-parse one line, then column-unparse the resulting record with
the same separator and the same field names (in template order). -/
def columnsThenUncolumns (sep : List Char) (ns : List String)
    (line : List Char) : Except PyErr (List Char) :=
  match columnsLine sep (ns.map some) line with
  | .error e => .error e
  | .ok record => uncolumnsLine sep ns record

/-! ### Sinks: `count`, `frequency`, `top_frequency`, `print_frequency` -/

/-- `count(source)`: `result = 0`, then `result += 1` per item. -/
def count (source : List α) : Nat :=
  source.foldl (fun result _ => result + 1) 0

/-- The body of the `frequency` loop for one item:

    if not item in counts:
        counts[item] = 0
    counts[item] += 1

(after the conditional insertion the key is present, so the `getD 0`
default of the read-back is never used). -/
def freqStep [DecidableEq α] (counts : List (α × Nat)) (item : α) :
    List (α × Nat) :=
  let counts := if dictMem counts item then counts else dictSet counts item 0
  dictSet counts item ((dictGet counts item).getD 0 + 1)

/-- The `for item in source` loop of `frequency`. -/
def freqLoop [DecidableEq α] (counts : List (α × Nat)) : List α → List (α × Nat)
  | [] => counts
  | item :: rest => freqLoop (freqStep counts item) rest

/-- `frequency(source)`: tally each item into a dict starting from `{}`. -/
def frequency [DecidableEq α] (source : List α) : List (α × Nat) :=
  freqLoop [] source

/-- A Python generator object that has been created but not yet iterated.
Only the outcome of running it to exhaustion is recorded.  Such an object
is always truthy, and it does not support subscripting. -/
structure PyGenerator (γ : Type u) where
  run : Except PyErr (List γ)

/-- `top_frequency(freq_dict, limit=None, ascending=False)`: calling it
creates a generator; its body starts with

    sortlist = sorted(freq.iteritems(), key=lambda x:x[1], reverse=True)

but no name `freq` is bound anywhere in scope (the parameter is
`freq_dict`, and the module has no global `freq`), so the first pull of the
generator raises NameError before anything is yielded.  (The `ascending`
parameter is also never read by the body.) -/
def top_frequency (freq_dict : List (α × Nat)) (limit : Option Nat)
    (ascending : Bool) : PyGenerator (α × Nat) :=
  ⟨.error .nameError⟩

/-- Python's `g[0]` on a generator object `g`: generators are not
subscriptable, so this raises TypeError. -/
def subscriptGenerator {γ : Type u} (g : PyGenerator γ) (i : Nat) : PyErr :=
  .typeError

/-- `print_frequency(source, limit=None)` (itself a generator; this is what
its first pull does):

    freq = frequency(source)
    sortlist = top_frequency(freq, limit)
    count_width = 5
    if sortlist:
        count_width = max(5, len(str(sortlist[0][1])))

`sortlist` is a freshly created generator object, which is always truthy,
so the branch is taken and `sortlist[0]` raises TypeError before any line
is yielded — for every input, including the empty one. -/
def print_frequency [DecidableEq α] (source : List α) (limit : Option Nat) :
    Except PyErr (List String) :=
  let freq := frequency source
  let sortlist := top_frequency freq limit false
  .error (subscriptGenerator sortlist 0)

/-- Total assignment of split segments to template slots, consuming the
two lists positionally, skipping discard slots, and stopping when either
list runs out.  Used to state what a successful `columns` parse returns. -/
def assignColumns (acc : List (String × List Char)) :
    List (Option String) → List (List Char) → List (String × List Char)
  | [], _ => acc
  | _ :: _, [] => acc
  | name :: names, value :: values =>
    assignColumns
      (match name with
       | some n => dictSet acc n value
       | none => acc)
      names values

/-! ### Lemmas about the embedded dict -/

theorem dictMem_cons [DecidableEq α] (kv : α × β) (d : List (α × β)) (k : α) :
    dictMem (kv :: d) k = (decide (kv.1 = k) || dictMem d k) := by
  simp [dictMem]

theorem dictGet_cons [DecidableEq α] (kv : α × β) (d : List (α × β)) (k : α) :
    dictGet (kv :: d) k = if kv.1 = k then some kv.2 else dictGet d k := by
  by_cases h : kv.1 = k <;> simp [dictGet, List.find?, h]

theorem dictKeys_cons (kv : α × β) (d : List (α × β)) :
    dictKeys (kv :: d) = kv.1 :: dictKeys d := rfl

theorem dictKeys_append (d e : List (α × β)) :
    dictKeys (d ++ e) = dictKeys d ++ dictKeys e := by
  simp [dictKeys]

theorem dictMem_iff [DecidableEq α] (d : List (α × β)) (k : α) :
    dictMem d k = true ↔ k ∈ dictKeys d := by
  induction d with
  | nil => simp [dictMem, dictKeys]
  | cons kv d ih =>
    rw [dictMem_cons, dictKeys_cons]
    by_cases h : kv.1 = k
    · simp [h]
    · constructor
      · intro hmm
        rcases Bool.or_eq_true_iff.mp hmm with h1 | h2
        · exact absurd (by simpa using h1) h
        · exact List.mem_cons_of_mem _ (ih.mp h2)
      · intro hmm
        rcases List.mem_cons.mp hmm with h1 | h2
        · exact absurd h1.symm h
        · simp [ih.mpr h2]

theorem dictGet_eq_none_of_not_mem [DecidableEq α] (d : List (α × β)) (k : α)
    (h : dictMem d k = false) : dictGet d k = none := by
  induction d with
  | nil => rfl
  | cons kv d ih =>
    rw [dictMem_cons] at h
    rcases Bool.or_eq_false_iff.mp h with ⟨h1, h2⟩
    rw [dictGet_cons, if_neg (by simpa using h1)]
    exact ih h2

theorem dictMem_eq_isSome [DecidableEq α] (d : List (α × β)) (k : α) :
    dictMem d k = (dictGet d k).isSome := by
  induction d with
  | nil => rfl
  | cons kv d ih =>
    rw [dictMem_cons, dictGet_cons]
    by_cases h : kv.1 = k
    · simp [h]
    · simp [h, ih]

theorem dictGet_append_self [DecidableEq α] (d : List (α × β)) (k : α) (v : β)
    (h : dictMem d k = false) : dictGet (d ++ [(k, v)]) k = some v := by
  induction d with
  | nil => simp [dictGet_cons]
  | cons kv d ih =>
    rw [dictMem_cons] at h
    rcases Bool.or_eq_false_iff.mp h with ⟨h1, h2⟩
    rw [List.cons_append, dictGet_cons, if_neg (by simpa using h1)]
    exact ih h2

theorem dictGet_map_set_self [DecidableEq α] (d : List (α × β)) (k : α) (v : β)
    (h : dictMem d k = true) :
    dictGet (d.map (fun kv => if kv.1 = k then (k, v) else kv)) k = some v := by
  induction d with
  | nil => simp [dictMem] at h
  | cons kv d ih =>
    rw [dictMem_cons] at h
    by_cases hk : kv.1 = k
    · simp [hk, dictGet_cons]
    · have h2 : dictMem d k = true := by simpa [hk] using h
      simp [hk, dictGet_cons, ih h2]

theorem dictGet_set_self [DecidableEq α] (d : List (α × β)) (k : α) (v : β) :
    dictGet (dictSet d k v) k = some v := by
  unfold dictSet
  by_cases h : dictMem d k
  · rw [if_pos h]
    exact dictGet_map_set_self d k v h
  · rw [if_neg h]
    exact dictGet_append_self d k v (by simpa using h)

theorem dictGet_map_set_ne [DecidableEq α] (d : List (α × β)) (k k' : α) (v : β)
    (h : k' ≠ k) :
    dictGet (d.map (fun kv => if kv.1 = k then (k, v) else kv)) k'
      = dictGet d k' := by
  induction d with
  | nil => rfl
  | cons kv d ih =>
    rw [List.map_cons]
    by_cases hk : kv.1 = k
    · rw [if_pos hk, dictGet_cons, dictGet_cons]
      rw [if_neg (fun hh : (k, v).1 = k' => h hh.symm)]
      rw [if_neg (fun hh : kv.1 = k' => h (hh.symm.trans hk))]
      exact ih
    · rw [if_neg hk, dictGet_cons, dictGet_cons]
      by_cases hk' : kv.1 = k'
      · rw [if_pos hk', if_pos hk']
      · rw [if_neg hk', if_neg hk']
        exact ih

theorem dictGet_append_ne [DecidableEq α] (d : List (α × β)) (k k' : α) (v : β)
    (h : k' ≠ k) : dictGet (d ++ [(k, v)]) k' = dictGet d k' := by
  induction d with
  | nil =>
    rw [List.nil_append, dictGet_cons, if_neg (fun hh => h hh.symm)]
  | cons kv d ih =>
    by_cases hk' : kv.1 = k'
    · simp [dictGet_cons, hk']
    · simp [dictGet_cons, hk', ih]

theorem dictGet_set_ne [DecidableEq α] (d : List (α × β)) (k k' : α) (v : β)
    (h : k' ≠ k) : dictGet (dictSet d k v) k' = dictGet d k' := by
  unfold dictSet
  by_cases hm : dictMem d k
  · rw [if_pos hm]
    exact dictGet_map_set_ne d k k' v h
  · rw [if_neg hm]
    exact dictGet_append_ne d k k' v h

theorem dictMem_set_self [DecidableEq α] (d : List (α × β)) (k : α) (v : β) :
    dictMem (dictSet d k v) k = true := by
  rw [dictMem_eq_isSome, dictGet_set_self]
  rfl

theorem dictMem_set_ne [DecidableEq α] (d : List (α × β)) (k k' : α) (v : β)
    (h : k' ≠ k) : dictMem (dictSet d k v) k' = dictMem d k' := by
  rw [dictMem_eq_isSome, dictMem_eq_isSome, dictGet_set_ne d k k' v h]

theorem dictKeys_map_set [DecidableEq α] (d : List (α × β)) (k : α) (v : β) :
    dictKeys (d.map (fun kv => if kv.1 = k then (k, v) else kv))
      = dictKeys d := by
  induction d with
  | nil => rfl
  | cons kv d ih =>
    by_cases hk : kv.1 = k
    · simpa [dictKeys_cons, hk] using ih
    · simpa [dictKeys_cons, hk] using ih

theorem dictKeys_set [DecidableEq α] (d : List (α × β)) (k : α) (v : β) :
    dictKeys (dictSet d k v)
      = if dictMem d k then dictKeys d else dictKeys d ++ [k] := by
  unfold dictSet
  by_cases hm : dictMem d k
  · rw [if_pos hm, if_pos hm, dictKeys_map_set]
  · rw [if_neg hm, if_neg hm, dictKeys_append]
    rfl

theorem map_set_of_not_mem [DecidableEq α] (d : List (α × β)) (k : α) (v : β)
    (h : dictMem d k = false) :
    d.map (fun kv => if kv.1 = k then (k, v) else kv) = d := by
  induction d with
  | nil => rfl
  | cons kv d ih =>
    rw [dictMem_cons] at h
    rcases Bool.or_eq_false_iff.mp h with ⟨h1, h2⟩
    simp [show ¬ (kv.1 = k) by simpa using h1, ih h2]

theorem sumValues_cons (kv : α × Nat) (d : List (α × Nat)) :
    sumValues (kv :: d) = kv.2 + sumValues d := by
  simp [sumValues]

theorem sumValues_append_single (d : List (α × Nat)) (k : α) (v : Nat) :
    sumValues (d ++ [(k, v)]) = sumValues d + v := by
  simp [sumValues]

theorem sumValues_set_succ [DecidableEq α] (k : α) (n : Nat) :
    ∀ d : List (α × Nat), (dictKeys d).Nodup → dictGet d k = some n →
      sumValues (dictSet d k (n + 1)) = sumValues d + 1 := by
  intro d
  induction d with
  | nil =>
    intro _ hget
    simp [dictGet] at hget
  | cons kv d ih =>
    intro hnd hget
    rw [dictKeys_cons, List.nodup_cons] at hnd
    rw [dictGet_cons] at hget
    by_cases hk : kv.1 = k
    · rw [if_pos hk] at hget
      injection hget with hv
      have hmem : dictMem (kv :: d) k = true := by
        rw [dictMem_cons]
        simp [hk]
      have hdmem : dictMem d k = false := by
        rcases Bool.eq_false_or_eq_true (dictMem d k) with h | h
        · exact absurd ((dictMem_iff d k).mp h) (hk ▸ hnd.1)
        · exact h
      unfold dictSet
      rw [if_pos hmem, List.map_cons, map_set_of_not_mem d k (n + 1) hdmem]
      rw [if_pos hk, sumValues_cons, sumValues_cons, ← hv]
      omega
    · rw [if_neg hk] at hget
      have hdm : dictMem d k = true := by
        rw [dictMem_eq_isSome, hget]
        rfl
      have hm : dictMem (kv :: d) k = true := by
        rw [dictMem_cons, hdm]
        simp
      have ihv := ih hnd.2 hget
      unfold dictSet at ihv ⊢
      rw [if_pos hdm] at ihv
      rw [if_pos hm, List.map_cons, if_neg hk, sumValues_cons, sumValues_cons, ihv]
      omega

/-! ### Lemmas about `frequency` and `count` -/

theorem freqStep_get_self [DecidableEq α] (d : List (α × Nat)) (item : α) :
    dictGet (freqStep d item) item = some ((dictGet d item).getD 0 + 1) := by
  simp only [freqStep]
  by_cases hm : dictMem d item
  · rw [if_pos hm, dictGet_set_self]
  · rw [if_neg hm]
    have hnone : dictGet d item = none :=
      dictGet_eq_none_of_not_mem d item (by simpa using hm)
    rw [dictGet_set_self, dictGet_set_self, hnone]
    simp

theorem freqStep_get_ne [DecidableEq α] (d : List (α × Nat)) (item a : α)
    (h : a ≠ item) : dictGet (freqStep d item) a = dictGet d a := by
  simp only [freqStep]
  by_cases hm : dictMem d item
  · rw [if_pos hm, dictGet_set_ne _ _ _ _ h]
  · rw [if_neg hm, dictGet_set_ne _ _ _ _ h, dictGet_set_ne _ _ _ _ h]

theorem freqStep_keys [DecidableEq α] (d : List (α × Nat)) (item : α) :
    dictKeys (freqStep d item)
      = if dictMem d item then dictKeys d else dictKeys d ++ [item] := by
  simp only [freqStep]
  by_cases hm : dictMem d item
  · rw [if_pos hm, if_pos hm, dictKeys_set, if_pos hm]
  · rw [if_neg hm, if_neg hm, dictKeys_set, if_pos (dictMem_set_self d item 0)]
    rw [dictKeys_set, if_neg hm]

theorem freqStep_keys_mem [DecidableEq α] (d : List (α × Nat)) (item a : α) :
    a ∈ dictKeys (freqStep d item) ↔ a ∈ dictKeys d ∨ a = item := by
  rw [freqStep_keys]
  by_cases hm : dictMem d item
  · rw [if_pos hm]
    constructor
    · intro h
      exact Or.inl h
    · rintro (h | rfl)
      · exact h
      · exact (dictMem_iff d a).mp hm
  · rw [if_neg hm]
    simp

theorem freqStep_nodup [DecidableEq α] (d : List (α × Nat)) (item : α)
    (h : (dictKeys d).Nodup) : (dictKeys (freqStep d item)).Nodup := by
  rw [freqStep_keys]
  by_cases hm : dictMem d item
  · rwa [if_pos hm]
  · rw [if_neg hm]
    have hni : item ∉ dictKeys d := by
      intro hmem
      exact absurd ((dictMem_iff d item).mpr hmem) hm
    simp [List.nodup_append, h, hni]

theorem freqStep_sum [DecidableEq α] (d : List (α × Nat)) (item : α)
    (h : (dictKeys d).Nodup) : sumValues (freqStep d item) = sumValues d + 1 := by
  simp only [freqStep]
  by_cases hm : dictMem d item
  · rw [if_pos hm]
    have hsome : (dictGet d item).isSome = true := by
      rw [← dictMem_eq_isSome]
      exact hm
    obtain ⟨n, hn⟩ := Option.isSome_iff_exists.mp hsome
    rw [hn]
    simpa using sumValues_set_succ item n d h hn
  · rw [if_neg hm]
    have hm' : dictMem d item = false := by simpa using hm
    have h0 : dictSet d item 0 = d ++ [(item, 0)] := by
      unfold dictSet
      rw [if_neg hm]
    have hget0 : dictGet (dictSet d item 0) item = some 0 := dictGet_set_self d item 0
    have hni : item ∉ dictKeys d := by
      intro hmem
      exact absurd ((dictMem_iff d item).mpr hmem) hm
    have hnd0 : (dictKeys (dictSet d item 0)).Nodup := by
      rw [h0, dictKeys_append, List.nodup_append]
      refine ⟨h, by simp [dictKeys], ?_⟩
      intro a haIn haIn'
      have ha : a = item := by simpa [dictKeys] using haIn'
      exact hni (ha ▸ haIn)
    have hs := sumValues_set_succ item 0 (dictSet d item 0) hnd0 hget0
    rw [hget0]
    simp only [Option.getD_some]
    rw [hs, h0, sumValues_append_single]

theorem freqLoop_get [DecidableEq α] (a : α) :
    ∀ (S : List α) (d : List (α × Nat)),
      dictGet (freqLoop d S) a
        = if a ∈ S then some ((dictGet d a).getD 0 + S.count a)
          else dictGet d a := by
  intro S
  induction S with
  | nil =>
    intro d
    simp [freqLoop]
  | cons item rest ih =>
    intro d
    rw [freqLoop, ih (freqStep d item)]
    by_cases ha : a = item
    · subst ha
      rw [if_pos (List.mem_cons_self a rest)]
      by_cases hr : a ∈ rest
      · rw [if_pos hr, freqStep_get_self]
        simp only [Option.getD_some, List.count_cons_self, Option.some.injEq]
        omega
      · rw [if_neg hr, freqStep_get_self]
        have hc : rest.count a = 0 := List.count_eq_zero.mpr hr
        simp [List.count_cons_self, hc]
    · rw [freqStep_get_ne d item a ha]
      have hmem : (a ∈ item :: rest) ↔ a ∈ rest := by
        simp [List.mem_cons, ha]
      have hcount : (item :: rest).count a = rest.count a :=
        List.count_cons_of_ne ha rest
      by_cases hr : a ∈ rest
      · rw [if_pos hr, if_pos (hmem.mpr hr), hcount]
      · rw [if_neg hr, if_neg (fun hh => hr (hmem.mp hh))]

theorem freqLoop_keys_iff [DecidableEq α] (a : α) :
    ∀ (S : List α) (d : List (α × Nat)),
      a ∈ dictKeys (freqLoop d S) ↔ a ∈ dictKeys d ∨ a ∈ S := by
  intro S
  induction S with
  | nil =>
    intro d
    simp [freqLoop]
  | cons item rest ih =>
    intro d
    rw [freqLoop, ih (freqStep d item), freqStep_keys_mem]
    simp [List.mem_cons]
    tauto

theorem freqLoop_nodup [DecidableEq α] :
    ∀ (S : List α) (d : List (α × Nat)),
      (dictKeys d).Nodup → (dictKeys (freqLoop d S)).Nodup := by
  intro S
  induction S with
  | nil =>
    intro d h
    simpa [freqLoop] using h
  | cons item rest ih =>
    intro d h
    rw [freqLoop]
    exact ih (freqStep d item) (freqStep_nodup d item h)

theorem freqLoop_sum [DecidableEq α] :
    ∀ (S : List α) (d : List (α × Nat)),
      (dictKeys d).Nodup → sumValues (freqLoop d S) = sumValues d + S.length := by
  intro S
  induction S with
  | nil =>
    intro d _
    simp [freqLoop]
  | cons item rest ih =>
    intro d h
    rw [freqLoop, ih (freqStep d item) (freqStep_nodup d item h)]
    rw [freqStep_sum d item h]
    simp only [List.length_cons]
    omega

theorem count_eq_length (S : List α) : count S = S.length := by
  suffices h : ∀ (T : List α) (n : Nat), T.foldl (fun r _ => r + 1) n = n + T.length by
    simpa [count] using h S 0
  intro T
  induction T with
  | nil =>
    intro n
    simp
  | cons x xs ih =>
    intro n
    rw [List.foldl_cons, ih (n + 1), List.length_cons]
    omega

/-! ### Lemmas about `pySplit`, `pyJoin` and `columns` -/

theorem leadsWith_eq_append [DecidableEq α] :
    ∀ (pat s : List α), leadsWith pat s = true → s = pat ++ s.drop pat.length := by
  intro pat
  induction pat with
  | nil =>
    intro s _
    simp
  | cons a pat ih =>
    intro s h
    cases s with
    | nil => simp [leadsWith] at h
    | cons b s =>
      rw [leadsWith] at h
      rcases Bool.and_eq_true_iff.mp h with ⟨h1, h2⟩
      have hab : a = b := by simpa using h1
      subst hab
      have ht := ih s h2
      simp only [List.cons_append, List.length_cons, List.drop_succ_cons]
      rw [← ht]

theorem splitFirst_eq (sep : List Char) :
    ∀ (s p q : List Char), splitFirst sep s = some (p, q) → s = p ++ sep ++ q := by
  intro s
  induction s with
  | nil =>
    intro p q h
    simp [splitFirst] at h
  | cons c rest ih =>
    intro p q h
    rw [splitFirst] at h
    by_cases hl : leadsWith sep (c :: rest) = true
    · rw [if_pos hl] at h
      obtain ⟨hp, hq⟩ := Prod.mk.inj (Option.some.inj h)
      subst hp
      subst hq
      simpa using leadsWith_eq_append sep (c :: rest) hl
    · rw [if_neg hl] at h
      cases hf : splitFirst sep rest with
      | none =>
        rw [hf] at h
        exact absurd h (by simp)
      | some pq =>
        rw [hf] at h
        obtain ⟨hp, hq⟩ := Prod.mk.inj (Option.some.inj h)
        subst hp
        subst hq
        have hrest := ih pq.1 pq.2 hf
        simp [hrest]

theorem pySplit_ne_nil (sep : List Char) (m : Nat) (s : List Char) :
    pySplit sep m s ≠ [] := by
  cases m with
  | zero => simp [pySplit]
  | succ m =>
    rw [pySplit]
    cases hsf : splitFirst sep s with
    | none => simp
    | some pq => simp

theorem pyJoin_pySplit (sep : List Char) :
    ∀ (m : Nat) (s : List Char), pyJoin sep (pySplit sep m s) = s := by
  intro m
  induction m with
  | zero =>
    intro s
    rfl
  | succ m ih =>
    intro s
    rw [pySplit]
    cases hsf : splitFirst sep s with
    | none => rfl
    | some pq =>
      have hne := pySplit_ne_nil sep m pq.2
      obtain ⟨y, rest, hyr⟩ : ∃ y rest, pySplit sep m pq.2 = y :: rest := by
        cases hL : pySplit sep m pq.2 with
        | nil => exact absurd hL hne
        | cons y rest => exact ⟨y, rest, rfl⟩
      show pyJoin sep (pq.1 :: pySplit sep m pq.2) = s
      rw [hyr, pyJoin, ← hyr, ih pq.2]
      exact (splitFirst_eq sep s pq.1 pq.2 hsf).symm

theorem pySplit_length_le (sep : List Char) :
    ∀ (m : Nat) (s : List Char), (pySplit sep m s).length ≤ m + 1 := by
  intro m
  induction m with
  | zero =>
    intro s
    simp [pySplit]
  | succ m ih =>
    intro s
    rw [pySplit]
    cases hsf : splitFirst sep s with
    | none => simp
    | some pq =>
      show (pq.1 :: pySplit sep m pq.2).length ≤ m + 1 + 1
      simp only [List.length_cons]
      exact Nat.succ_le_succ (ih pq.2)

theorem columnsLoop_ok :
    ∀ (names : List (Option String)) (values : List (List Char))
      (acc : List (String × List Char)),
      names.length ≤ values.length →
      columnsLoop acc names values = .ok (assignColumns acc names values) := by
  intro names
  induction names with
  | nil =>
    intro values acc _
    rfl
  | cons name names ih =>
    intro values acc h
    cases values with
    | nil => simp at h
    | cons v vs =>
      cases name with
      | some n => exact ih vs (dictSet acc n v) (Nat.le_of_succ_le_succ h)
      | none => exact ih vs acc (Nat.le_of_succ_le_succ h)

theorem columnsLoop_short :
    ∀ (names : List (Option String)) (values : List (List Char))
      (acc : List (String × List Char)),
      values.length < names.length →
      columnsLoop acc names values = .error .indexError := by
  intro names
  induction names with
  | nil =>
    intro values acc h
    exact absurd h (Nat.not_lt_zero _)
  | cons name names ih =>
    intro values acc h
    cases values with
    | nil => rfl
    | cons v vs =>
      cases name with
      | some n => exact ih vs (dictSet acc n v) (Nat.lt_of_succ_lt_succ h)
      | none => exact ih vs acc (Nat.lt_of_succ_lt_succ h)

theorem assignColumns_take :
    ∀ (names : List (Option String)) (values : List (List Char))
      (acc : List (String × List Char)),
      assignColumns acc names (values.take names.length)
        = assignColumns acc names values := by
  intro names
  induction names with
  | nil =>
    intro values acc
    rfl
  | cons name names ih =>
    intro values acc
    cases values with
    | nil => rfl
    | cons v vs =>
      cases name with
      | some n =>
        show assignColumns (dictSet acc n v) names (vs.take names.length)
          = assignColumns (dictSet acc n v) names vs
        exact ih vs (dictSet acc n v)
      | none =>
        show assignColumns acc names (vs.take names.length)
          = assignColumns acc names vs
        exact ih vs acc

theorem assign_get_not_mem :
    ∀ (ns : List String) (vs : List (List Char))
      (acc : List (String × List Char)) (k : String),
      k ∉ ns →
      dictGet (assignColumns acc (ns.map some) vs) k = dictGet acc k := by
  intro ns
  induction ns with
  | nil =>
    intro vs acc k _
    rfl
  | cons n ns ih =>
    intro vs acc k hk
    cases vs with
    | nil => rfl
    | cons v vs =>
      have h1 : k ∉ ns := fun hh => hk (List.mem_cons_of_mem _ hh)
      have h2 : k ≠ n := fun hh => hk (hh ▸ List.mem_cons_self n ns)
      have hstep : assignColumns acc ((n :: ns).map some) (v :: vs)
          = assignColumns (dictSet acc n v) (ns.map some) vs := rfl
      rw [hstep, ih vs (dictSet acc n v) k h1, dictGet_set_ne acc n k v h2]

theorem assign_lookupAll :
    ∀ (ns : List String) (vs : List (List Char))
      (acc : List (String × List Char)),
      ns.Nodup → ns.length = vs.length →
      (∀ n ∈ ns, dictMem acc n = false) →
      lookupAll (assignColumns acc (ns.map some) vs) ns = .ok vs := by
  intro ns
  induction ns with
  | nil =>
    intro vs acc _ hlen _
    cases vs with
    | nil => rfl
    | cons v vs => simp at hlen
  | cons n ns ih =>
    intro vs acc hnd hlen hmem
    cases vs with
    | nil => simp at hlen
    | cons v vs =>
      rw [List.nodup_cons] at hnd
      have hlen' : ns.length = vs.length := by simpa using hlen
      have hstep : assignColumns acc ((n :: ns).map some) (v :: vs)
          = assignColumns (dictSet acc n v) (ns.map some) vs := rfl
      rw [hstep]
      have hgetn : dictGet (assignColumns (dictSet acc n v) (ns.map some) vs) n
          = some v := by
        rw [assign_get_not_mem ns vs (dictSet acc n v) n hnd.1, dictGet_set_self]
      have hrest : lookupAll (assignColumns (dictSet acc n v) (ns.map some) vs) ns
          = .ok vs := by
        apply ih vs (dictSet acc n v) hnd.2 hlen'
        intro m hm
        have hmn : m ≠ n := fun hh => hnd.1 (hh ▸ hm)
        rw [dictMem_set_ne acc n m v hmn]
        exact hmem m (List.mem_cons_of_mem _ hm)
      simp only [lookupAll, hgetn, hrest]

/-! ### Lemmas about `grep`, `find` and `once` -/

theorem grep_eq_filter (S : List α) (search : α → Bool) (invert : Bool) :
    grep S search invert = S.filter (fun x => (search x).xor invert) := by
  induction S with
  | nil => rfl
  | cons item rest ih =>
    show (if (search item).xor invert then item :: grep rest search invert
          else grep rest search invert)
        = (item :: rest).filter (fun x => (search x).xor invert)
    rw [List.filter_cons]
    by_cases h : ((search item).xor invert) = true
    · rw [if_pos h, if_pos h, ih]
    · rw [if_neg h, if_neg h, ih]

theorem find_eq_filter (T : List (List Char)) (pattern : List Char) (invert : Bool) :
    find T pattern invert = T.filter (fun x => (pyContains pattern x).xor invert) := by
  induction T with
  | nil => rfl
  | cons item rest ih =>
    show (if (pyContains pattern item).xor invert then item :: find rest pattern invert
          else find rest pattern invert)
        = (item :: rest).filter (fun x => (pyContains pattern x).xor invert)
    rw [List.filter_cons]
    by_cases h : ((pyContains pattern item).xor invert) = true
    · rw [if_pos h, if_pos h, ih]
    · rw [if_neg h, if_neg h, ih]

theorem once_eq_filterMap (S : List α) (callbacks : List (α → Option β)) :
    once S callbacks = S.filterMap (onceItem callbacks) := by
  induction S with
  | nil => rfl
  | cons item rest ih =>
    show (match onceItem callbacks item with
          | some result => result :: once rest callbacks
          | none => once rest callbacks)
        = (item :: rest).filterMap (onceItem callbacks)
    rw [List.filterMap_cons]
    cases h : onceItem callbacks item with
    | some r => simp [ih]
    | none => simp [ih]

/-! ### The claims -/

/-- C1: for every finite sequence `S` of hashable items, `frequency(S)`
returns a mapping whose keys are exactly the distinct items of `S`, where
each key's count equals the number of elements of `S` equal to that key,
and the sum of all counts equals `count(S)`. -/
theorem frequency_keys_counts_total [DecidableEq α] (S : List α) :
    ((dictKeys (frequency S)).Nodup
      ∧ (∀ a, a ∈ dictKeys (frequency S) ↔ a ∈ S))
    ∧ (∀ a, a ∈ S → dictGet (frequency S) a = some (S.count a))
    ∧ sumValues (frequency S) = count S := by
  refine ⟨⟨?_, ?_⟩, ?_, ?_⟩
  · exact freqLoop_nodup S [] (by simp [dictKeys])
  · intro a
    have h := freqLoop_keys_iff a S []
    simpa [frequency, dictKeys] using h
  · intro a ha
    have h := freqLoop_get a S []
    rw [if_pos ha] at h
    simpa [frequency, dictGet] using h
  · rw [count_eq_length]
    have h := freqLoop_sum S [] (by simp [dictKeys])
    simpa [frequency, sumValues] using h

theorem frequency_keys_counts_total_witness :
    dictGet (frequency ["a", "b", "a", "a", "c"]) "a"
      = some (["a", "b", "a", "a", "c"].count "a") :=
  (frequency_keys_counts_total ["a", "b", "a", "a", "c"]).2.1 "a" (by decide)

/-- C2: the claim says `top_frequency(F, limit=K)` produces at most `K`
pairs sorted by count; but the body of `top_frequency` reads the undefined
name `freq` (its parameter is `freq_dict`), so iterating the generator
raises NameError for every input — here the frequency dict `{"a": 3}` with
limit 1, where the claim expects `[("a", 3)]`.  (The `ascending` flag is
also never read by the body.) -/
theorem top_frequency_raises_nameError :
    (top_frequency [("a", 3)] (some 1) false).run = .error PyErr.nameError := rfl

/-- C3 counterexample: column-parse then column-unparse with the same
separator and a discard-free template does NOT always reconstruct the
line.  With template `("A","B","C")` and separator `" "`, the line
`"a b c d"` splits (maxsplit = 3) into 4 segments, the loop keeps only the
first 3, and unparsing gives `"a b c"`.  With duplicate template names
`("A","A")`, the line `"x y"` parses to `{"A": "y"}` (the second
assignment overwrites the first) and unparses to `"y y"`. -/
theorem columns_roundtrip_counterexample :
    columnsThenUncolumns [' '] ["A", "B", "C"] (String.toList "a b c d")
        = .ok (String.toList "a b c")
      ∧ String.toList "a b c" ≠ String.toList "a b c d"
      ∧ columnsThenUncolumns [' '] ["A", "A"] (String.toList "x y")
        = .ok (String.toList "y y")
      ∧ String.toList "y y" ≠ String.toList "x y" :=
  ⟨rfl, by decide, rfl, by decide⟩

/-- C3 (amended): for the fixed-separator `'split'` strategy, if the
template contains no discard sentinels, its field names are pairwise
distinct, and splitting the line on the separator (with maxsplit equal to
the template length) yields exactly as many segments as the template has
entries, then column-parsing and then rejoining with the same separator
and field-name order reconstructs the original line exactly. -/
theorem columns_roundtrip_amended (sep : List Char) (ns : List String)
    (line : List Char) (hnd : ns.Nodup)
    (hlen : (pySplit sep ns.length line).length = ns.length) :
    columnsThenUncolumns sep ns line = .ok line := by
  have hmaplen : (ns.map some).length = ns.length := by simp
  have hok : columnsLine sep (ns.map some) line
      = .ok (assignColumns [] (ns.map some) (pySplit sep ns.length line)) := by
    show columnsLoop [] (ns.map some) (pySplit sep (ns.map some).length line)
      = .ok (assignColumns [] (ns.map some) (pySplit sep ns.length line))
    rw [hmaplen]
    exact columnsLoop_ok (ns.map some) (pySplit sep ns.length line) []
      (by rw [hmaplen, hlen])
  unfold columnsThenUncolumns
  rw [hok]
  show uncolumnsLine sep ns
      (assignColumns [] (ns.map some) (pySplit sep ns.length line)) = .ok line
  have hlook := assign_lookupAll ns (pySplit sep ns.length line) [] hnd hlen.symm
    (fun n _ => rfl)
  unfold uncolumnsLine
  rw [hlook]
  show Except.ok (pyJoin sep (pySplit sep ns.length line)) = .ok line
  rw [pyJoin_pySplit sep ns.length line]

theorem columns_roundtrip_witness :
    columnsThenUncolumns [' '] ["A", "B", "C"] (String.toList "a b c")
      = .ok (String.toList "a b c") :=
  columns_roundtrip_amended [' '] ["A", "B", "C"] (String.toList "a b c")
    (by decide) (by decide)

/-- C4: the column parser splits each line, assigns segments positionally
to template names and omits segments whose slot is the discard sentinel:
on lines `["a b c", "x y z"]` with separator `" "` and template
`("Left", None, "Right")` it yields exactly
`[{"Left":"a","Right":"c"}, {"Left":"x","Right":"z"}]`, with no error. -/
theorem columns_scenario :
    columnsList [' '] [some "Left", none, some "Right"]
        [String.toList "a b c", String.toList "x y z"]
      = ([[("Left", String.toList "a"), ("Right", String.toList "c")],
          [("Left", String.toList "x"), ("Right", String.toList "z")]], none) := rfl

/-- C5: when a line yields fewer split segments than the column-name
template has entries, the column parser fails with IndexError when that
line is consumed: the failing line produces no record (partial or
otherwise), earlier lines' records are unaffected, and the error
propagates from the point of consumption. -/
theorem columns_short_line_indexError (sep : List Char)
    (names : List (Option String)) (line : List Char)
    (h : (pySplit sep names.length line).length < names.length) :
    columnsLine sep names line = .error .indexError
    ∧ ∀ (pre rest : List (List Char)) (recs : List (List (String × List Char))),
        columnsList sep names pre = (recs, none) →
        columnsList sep names (pre ++ line :: rest)
          = (recs, some .indexError) := by
  have hline : columnsLine sep names line = .error .indexError :=
    columnsLoop_short names (pySplit sep names.length line) [] h
  refine ⟨hline, ?_⟩
  intro pre
  induction pre with
  | nil =>
    intro rest recs hpre
    have hrecs : recs = [] := by
      simpa [columnsList] using congrArg Prod.fst hpre.symm
    subst hrecs
    show columnsList sep names (line :: rest) = ([], some .indexError)
    simp [columnsList, hline]
  | cons l ls ih =>
    intro rest recs hpre
    cases hcl : columnsLine sep names l with
    | error e =>
      simp only [columnsList, hcl] at hpre
      exact absurd (congrArg Prod.snd hpre) (by simp)
    | ok record =>
      simp only [columnsList, hcl] at hpre
      obtain ⟨rs, e, hls⟩ : ∃ rs e, columnsList sep names ls = (rs, e) :=
        ⟨_, _, rfl⟩
      rw [hls] at hpre
      simp only [Prod.mk.injEq] at hpre
      obtain ⟨h1, h2⟩ := hpre
      subst h2
      have hrec := ih rest rs hls
      show columnsList sep names (l :: (ls ++ line :: rest))
        = (recs, some .indexError)
      simp only [columnsList, hcl, hrec]
      rw [h1]

theorem columns_short_line_indexError_witness :
    columnsLine [' '] [some "A", some "B", some "C"] (String.toList "a b")
        = .error PyErr.indexError
    ∧ columnsList [' '] [some "A", some "B", some "C"]
        ([String.toList "x y z"] ++ String.toList "a b" :: [])
      = ([[("A", String.toList "x"), ("B", String.toList "y"),
           ("C", String.toList "z")]], some PyErr.indexError) := by
  have h := columns_short_line_indexError [' ']
    [some "A", some "B", some "C"] (String.toList "a b") (by decide)
  exact ⟨h.1, h.2 [String.toList "x y z"] []
    [[("A", String.toList "x"), ("B", String.toList "y"),
      ("C", String.toList "z")]] rfl⟩

/-- C6: the regex filter `grep` and the substring filter `find` yield
exactly the items of the source for which the match/containment predicate
XORed with the invert flag holds, in original relative order and nothing
else, and the `invert=True` output is exactly the complement within the
source of the `invert=False` output. -/
theorem grep_find_filter (S : List α) (search : α → Bool) (invert : Bool)
    (T : List (List Char)) (pattern : List Char) :
    grep S search invert = S.filter (fun x => (search x).xor invert)
    ∧ find T pattern invert = T.filter (fun x => (pyContains pattern x).xor invert)
    ∧ (∀ x, x ∈ S → (x ∈ grep S search true ↔ x ∉ grep S search false))
    ∧ (∀ x, x ∈ T → (x ∈ find T pattern true ↔ x ∉ find T pattern false)) := by
  refine ⟨grep_eq_filter S search invert, find_eq_filter T pattern invert, ?_, ?_⟩
  · intro x hx
    rw [grep_eq_filter, grep_eq_filter]
    simp only [List.mem_filter, hx, true_and]
    cases search x <;> simp
  · intro x hx
    rw [find_eq_filter, find_eq_filter]
    simp only [List.mem_filter, hx, true_and]
    cases pyContains pattern x <;> simp

theorem grep_find_filter_witness :
    String.toList "ab"
        ∈ find [String.toList "ab", String.toList "cd"] (String.toList "a") true
      ↔ String.toList "ab"
        ∉ find [String.toList "ab", String.toList "cd"] (String.toList "a") false :=
  (grep_find_filter ([] : List Nat) (fun _ => true) false
      [String.toList "ab", String.toList "cd"] (String.toList "a")).2.2.2
    (String.toList "ab") (by decide)

/-- C7: `once` invokes its callbacks in order on each item, yields exactly
the first non-None result, invokes no further callbacks for that item, and
drops items for which every callback returns None.  In particular, with
callbacks `[A, B]`: when `A` always returns None, `once` behaves exactly
like `once` with `B` alone; when `A` always returns a value, the result is
the same whatever callback is in `B`'s position (B is never invoked). -/
theorem once_dispatch (S : List α) (A B : α → Option β) :
    once S [A, B] = S.filterMap (onceItem [A, B])
    ∧ ((∀ x, A x = none) → once S [A, B] = once S [B])
    ∧ ((∀ x, (A x).isSome) → ∀ C : α → Option β, once S [A, C] = once S [A])
    ∧ ((∀ x, x ∈ S → onceItem [A, B] x = none) → once S [A, B] = []) := by
  refine ⟨once_eq_filterMap S [A, B], ?_, ?_, ?_⟩
  · intro hA
    induction S with
    | nil => rfl
    | cons item rest ih =>
      have hitem : onceItem [A, B] item = onceItem [B] item := by
        show (match A item with
              | some result => some result
              | none => onceItem [B] item) = onceItem [B] item
        rw [hA item]
      show (match onceItem [A, B] item with
            | some result => result :: once rest [A, B]
            | none => once rest [A, B])
          = (match onceItem [B] item with
            | some result => result :: once rest [B]
            | none => once rest [B])
      rw [hitem, ih]
  · intro hA C
    induction S with
    | nil => rfl
    | cons item rest ih =>
      obtain ⟨r, hr⟩ := Option.isSome_iff_exists.mp (hA item)
      have h1 : onceItem [A, C] item = some r := by
        show (match A item with
              | some result => some result
              | none => onceItem [C] item) = some r
        rw [hr]
      have h2 : onceItem [A] item = some r := by
        show (match A item with
              | some result => some result
              | none => onceItem ([] : List (α → Option β)) item) = some r
        rw [hr]
      show (match onceItem [A, C] item with
            | some result => result :: once rest [A, C]
            | none => once rest [A, C])
          = (match onceItem [A] item with
            | some result => result :: once rest [A]
            | none => once rest [A])
      rw [h1, h2, ih]
  · intro hnone
    rw [once_eq_filterMap S [A, B]]
    exact List.filterMap_eq_nil_iff.mpr hnone

theorem once_dispatch_witness :
    once [1, 2, 3] [fun _ => (none : Option Nat), fun x => some (x + 1)]
      = once [1, 2, 3] [fun x => some (x + 1)] :=
  (once_dispatch [1, 2, 3] (fun _ => (none : Option Nat))
    (fun x => some (x + 1))).2.1 (fun _ => rfl)

/-- C8: the claim says the formatted frequency report on an empty input
emits exactly the header and the `=` rule with width 5; but
`print_frequency` stores the generator object returned by `top_frequency`
in `sortlist`, a generator object is always truthy, and `sortlist[0]`
subscripts the generator, raising TypeError before anything is yielded —
on the empty input too. -/
theorem print_frequency_empty_raises :
    print_frequency ([] : List String) none = .error PyErr.typeError := rfl

/-- C9: the claim says that for a file-like origin `cat` yields exactly
the stream's lines and does not open it as a path; but the `if
is_filelike(item)` branch has no `else`, so after yielding the stream's
lines `cat` falls through to `with open(item, 'r')` on the stream object,
which raises TypeError. -/
theorem cat_filelike_falls_through :
    is_filelike (CatItem.stream [String.toList "hello"]) = true
    ∧ cat (fun _ => none) [CatItem.stream [String.toList "hello"]]
        = ([String.toList "hello"], some PyErr.typeError) :=
  ⟨rfl, rfl⟩

/-- C10 (implicit): for the `'split'` strategy the column parser never
fails on a line yielding at least as many segments as the template has
entries: the split is capped at maxsplit = template length (hence at most
length + 1 segments), exactly the first `len(column_names)` segments are
assigned to fields, and the remaining content is silently discarded. -/
theorem columns_excess_segments (sep : List Char)
    (names : List (Option String)) (line : List Char)
    (h : names.length ≤ (pySplit sep names.length line).length) :
    columnsLine sep names line
      = .ok (assignColumns [] names
          ((pySplit sep names.length line).take names.length))
    ∧ (pySplit sep names.length line).length ≤ names.length + 1 := by
  constructor
  · rw [assignColumns_take names (pySplit sep names.length line) []]
    exact columnsLoop_ok names (pySplit sep names.length line) [] h
  · exact pySplit_length_le sep names.length line

theorem columns_excess_segments_witness :
    columnsLine [' '] [some "A"] (String.toList "a b c")
      = .ok (assignColumns [] [some "A"]
          ((pySplit [' '] [some "A"].length (String.toList "a b c")).take
            [some "A"].length))
    ∧ (pySplit [' '] [some "A"].length (String.toList "a b c")).length
        ≤ [some "A"].length + 1 :=
  columns_excess_segments [' '] [some "A"] (String.toList "a b c") (by decide)

end Sawmill
